import Mathlib

/-!
Verification of the filter evaluation module (src/utilities/filters.py):
parameter and coordinate normalization, the Gaussian filter and the Window
filter, embedded over a real-valued tensor model.  A tensor is modelled as a
shape together with a value function on multi-indices; elementwise torch
operations act pointwise on the value function.
-/

/-- Model of a torch tensor: a shape together with real values addressed by a
multi-index. -/
structure Tensor where
  shape : List Nat
  data : List Nat → ℝ

/-- Elementwise product of two tensors of a common shape; the shape of the
left operand is kept, matching torch semantics on equal shapes. -/
def Tensor.mul (a b : Tensor) : Tensor :=
  ⟨a.shape, fun idx => a.data idx * b.data idx⟩

/-- Default tensor used to totalize list indexing in the model. -/
def dfltTensor : Tensor := ⟨[], fun _ => 0⟩

/-- Python exception kinds raised by the module: the ValueError raised by the
coordinate validation and the constructor validation, the IndexError from
indexing an empty argument tuple, and the AttributeError from the Window
constructor fallthrough. -/
inductive PyError where
  | valueError
  | indexError
  | attributeError
  deriving DecidableEq

/-- Whether an Except value is a success. -/
def exceptOk {ε α : Type} : Except ε α → Bool
  | .ok _ => true
  | .error _ => false

/-- Python zip over three sequences: truncates to the shortest input. -/
def zip3 {α β γ : Type} : List α → List β → List γ → List (α × β × γ)
  | a :: ta, b :: tb, c :: tc => (a, b, c) :: zip3 ta tb tc
  | _, _, _ => []

/-- torch meshgrid with ij indexing restricted to 1-D inputs, as used by the
source: output k has the shape obtained by stacking the axis lengths, and its
value at a multi-index is axis k's value at the k-th component of that
index. -/
def meshgrid (axes : List Tensor) : List Tensor :=
  (List.range axes.length).map fun k =>
    ⟨axes.map fun a => a.shape.headD 0,
     fun idx => (axes.getD k dfltTensor).data [idx.getD k 0]⟩

/-- Model of the static coordinate normalizer of the Filter class: checks the
number of coordinate arrays, reads the first array's size, then for a
multi-dimensional filter either meshes all-1-D inputs or requires a common
shape. -/
def fixCoordinates (dims : Nat) (coordinates : List Tensor) :
    Except PyError (List Tensor) :=
  if coordinates.length ≠ dims then .error .valueError
  else
    match coordinates.head? with
    | none => .error .indexError
    | some c0 =>
      if dims ≠ 1 then
        if ∀ c ∈ coordinates, c.shape.length = 1 then
          .ok (meshgrid coordinates)
        else if ¬ ∀ c ∈ coordinates, c.shape = c0.shape then
          .error .valueError
        else .ok coordinates
      else .ok coordinates

/-- A construction argument that is a bare float or an iterable of floats. -/
inductive ScalarOrSeq where
  | scalar (x : ℝ)
  | seq (xs : List ℝ)

/-- Model of one slot of the static parameter normalizer of the Filter class:
a scalar becomes a one-element tuple, an iterable becomes its tuple, an
absent argument stays absent. -/
def fixParameter : Option ScalarOrSeq → Option (List ℝ)
  | some (.scalar x) => some [x]
  | some (.seq xs) => some xs
  | none => none

/-- The parameter normalizer applied to every supplied slot. -/
def fixParameters (ps : List (Option ScalarOrSeq)) : List (Option (List ℝ)) :=
  ps.map fixParameter

/-- The module constant: square root of 2 pi. -/
noncomputable def sqrt2pi : ℝ := Real.sqrt (2 * Real.pi)

/-- The accumulation performed by the normalization setter of the Gaussian
class: starts at 1 and multiplies by 1 / (sigma * sqrt2pi) for each axis. -/
noncomputable def gaussNormConst (sigmas : List ℝ) : ℝ :=
  sigmas.foldl (fun acc sigma => acc * (1 / (sigma * sqrt2pi))) 1

/-- The per-axis exponent multipliers of the Gaussian class. -/
noncomputable def gaussMultipliers (sigmas : List ℝ) : List ℝ :=
  sigmas.map fun sigma => -1 / (2 * sigma * sigma)

/-- A limits argument: a bare pair of floats or an iterable of pairs. -/
inductive LimitsArg where
  | pair (p : ℝ × ℝ)
  | seq (ps : List (ℝ × ℝ))

/-- Normalization of the sigmas argument in the Gaussian constructor. -/
def sigmasTuple : ScalarOrSeq → List ℝ
  | .scalar x => [x]
  | .seq xs => xs

/-- Normalization of the means argument in the Gaussian constructor: an
absent argument defaults to a zero tuple of length dims. -/
def meansTuple (dims : Nat) : Option ScalarOrSeq → List ℝ
  | none => List.replicate dims 0
  | some (.scalar x) => [x]
  | some (.seq xs) => xs

/-- Normalization of the limits argument in the Gaussian constructor: a bare
pair becomes a one-element tuple of pairs. -/
def limitsTuple : Option LimitsArg → Option (List (ℝ × ℝ))
  | none => none
  | some (.pair p) => some [p]
  | some (.seq ps) => some ps

/-- The Gaussian filter object: stored parameters together with the derived
constants precomputed at construction. -/
structure Gaussian where
  sigmas : List ℝ
  means : List ℝ
  limits : Option (List (ℝ × ℝ))
  normConst : ℝ
  multipliers : List ℝ

/-- The dims property of the Gaussian class: the number of sigmas. -/
def Gaussian.dims (g : Gaussian) : Nat := g.sigmas.length

/-- Model of the Gaussian constructor: normalizes the arguments, validates
that the tuple lengths agree, and precomputes the derived constants. -/
noncomputable def Gaussian.make (sigmas : ScalarOrSeq) (means : Option ScalarOrSeq)
    (limits : Option LimitsArg) : Except PyError Gaussian :=
  let sigmasT := sigmasTuple sigmas
  let dims := sigmasT.length
  let meansT := meansTuple dims means
  let limitsT := limitsTuple limits
  if (sigmasT.length != dims) || (meansT.length != dims) ||
      ((match limitsT with | some l => l.length != dims | none => false) : Bool) then
    .error .valueError
  else
    .ok ⟨sigmasT, meansT, limitsT, gaussNormConst sigmasT, gaussMultipliers sigmasT⟩

/-- One iteration of the evaluation loop of the Gaussian class: multiply the
running result elementwise by exp of multiplier times the squared distance
from the mean. -/
noncomputable def gaussStep (result : Tensor) (mmc : ℝ × ℝ × Tensor) : Tensor :=
  result.mul ⟨mmc.2.2.shape, fun idx => Real.exp (mmc.1 * (mmc.2.1 - mmc.2.2.data idx) ^ 2)⟩

/-- Model of calling the Gaussian filter on coordinate arrays: normalize the
coordinates, start from ones times the normalization constant, then run the
loop over the zipped multipliers, means and coordinates. -/
noncomputable def Gaussian.call (g : Gaussian) (coordinates : List Tensor) :
    Except PyError Tensor :=
  match fixCoordinates g.dims coordinates with
  | .error e => .error e
  | .ok coords =>
    match coords.head? with
    | none => .error .indexError
    | some c0 =>
      .ok ((zip3 g.multipliers g.means coords).foldl gaussStep
        ⟨c0.shape, fun _ => 1 * g.normConst⟩)

/-- The Window filter object: per-axis lower and upper bounds. -/
structure Window where
  positions0 : List ℝ
  positions1 : List ℝ

/-- The dims property of the Window class: the number of lower bounds. -/
def Window.dims (w : Window) : Nat := w.positions0.length

/-- Model of the Window constructor: the arguments are normalized and the
first of the four parameter combinations matched by the if chain wins; with
no match an attribute error is raised. -/
noncomputable def Window.make (positions0 positions1 centers sizes : Option ScalarOrSeq) :
    Except PyError Window :=
  match fixParameter positions0, fixParameter positions1,
      fixParameter centers, fixParameter sizes with
  | some p0, some p1, _, _ => .ok ⟨p0, p1⟩
  | some p0, _, _, some sz =>
    .ok ⟨p0, List.zipWith (fun position0 size => position0 + size) p0 sz⟩
  | _, some p1, _, some sz =>
    .ok ⟨List.zipWith (fun position1 size => position1 - size) p1 sz, p1⟩
  | _, _, some cen, some sz =>
    .ok ⟨List.zipWith (fun center size => center - size / 2) cen sz,
         List.zipWith (fun center size => center + size / 2) cen sz⟩
  | _, _, _, _ => .error .attributeError

/-- One iteration of the evaluation loop of the Window class: multiply the
running result elementwise by the product of the two comparison masks. -/
noncomputable def windowStep (result : Tensor) (ppc : ℝ × ℝ × Tensor) : Tensor :=
  result.mul (Tensor.mul
    ⟨ppc.2.2.shape, fun idx => if ppc.1 ≤ ppc.2.2.data idx then 1 else 0⟩
    ⟨ppc.2.2.shape, fun idx => if ppc.2.2.data idx ≤ ppc.2.1 then 1 else 0⟩)

/-- Model of calling the Window filter on coordinate arrays: normalize the
coordinates, start from ones, then run the mask loop over the zipped bounds
and coordinates. -/
noncomputable def Window.call (w : Window) (coordinates : List Tensor) :
    Except PyError Tensor :=
  match fixCoordinates w.dims coordinates with
  | .error e => .error e
  | .ok coords =>
    match coords.head? with
    | none => .error .indexError
    | some c0 =>
      .ok ((zip3 w.positions0 w.positions1 coords).foldl windowStep
        ⟨c0.shape, fun _ => 1⟩)

/-- Stated from the spec, for comparison with the constructor: the four
Window parameter combinations, each true when both of its arguments are
supplied. -/
def windowCombos (positions0 positions1 centers sizes : Option ScalarOrSeq) : List Bool :=
  [positions0.isSome && positions1.isSome,
   positions0.isSome && sizes.isSome,
   positions1.isSome && sizes.isSome,
   centers.isSome && sizes.isSome]

/-! Helper lemmas. -/

theorem zip3_nil_left {α β γ : Type} (lb : List β) (lc : List γ) :
    zip3 ([] : List α) lb lc = [] := by
  cases lb <;> cases lc <;> rfl

theorem zip3_length {α β γ : Type} (la : List α) (lb : List β) (lc : List γ) :
    (zip3 la lb lc).length = min la.length (min lb.length lc.length) := by
  induction la generalizing lb lc with
  | nil => cases lb <;> cases lc <;> simp [zip3]
  | cons a ta ih =>
    cases lb with
    | nil => simp [zip3]
    | cons b tb =>
      cases lc with
      | nil => simp [zip3]
      | cons c tc => simp [zip3, ih]; omega

theorem zip3_map_left {α α2 β γ : Type} (f : α → α2)
    (la : List α) (lb : List β) (lc : List γ) :
    zip3 (la.map f) lb lc = (zip3 la lb lc).map fun x => (f x.1, x.2.1, x.2.2) := by
  induction la generalizing lb lc with
  | nil => simp [zip3_nil_left]
  | cons a ta ih =>
    cases lb with
    | nil => simp [zip3]
    | cons b tb =>
      cases lc with
      | nil => simp [zip3]
      | cons c tc => simp [zip3, ih]

theorem zip3_forall_getD {α β γ : Type} (P : α → β → γ → Prop)
    (la : List α) (lb : List β) (lc : List γ)
    (hb : lb.length = la.length) (hc : lc.length = la.length)
    (a0 : α) (b0 : β) (c0 : γ) :
    (∀ x ∈ zip3 la lb lc, P x.1 x.2.1 x.2.2) ↔
      ∀ i, i < la.length → P (la.getD i a0) (lb.getD i b0) (lc.getD i c0) := by
  induction la generalizing lb lc with
  | nil => simp [zip3_nil_left]
  | cons a ta ih =>
    cases lb with
    | nil => simp at hb
    | cons b tb =>
      cases lc with
      | nil => simp at hc
      | cons c tc =>
        simp only [zip3, List.forall_mem_cons]
        rw [ih tb tc (by simpa using hb) (by simpa using hc)]
        constructor
        · rintro ⟨hhd, htl⟩ i hi
          cases i with
          | zero => simpa using hhd
          | succ j =>
            simp only [List.getD_cons_succ]
            exact htl j (by simpa using hi)
        · intro h
          refine ⟨by simpa using h 0 (by simp), fun i hi => ?_⟩
          have := h (i + 1) (by simpa using hi)
          simpa using this

theorem foldl_mul_eq_prod {α : Type} (f : α → ℝ) (l : List α) (c : ℝ) :
    l.foldl (fun acc x => acc * f x) c = c * (l.map f).prod := by
  induction l generalizing c with
  | nil => simp
  | cons hd tl ih => simp [ih]; ring

theorem gaussStep_foldl (l : List (ℝ × ℝ × Tensor)) (t : Tensor) (idx : List Nat) :
    (l.foldl gaussStep t).data idx =
      t.data idx *
        (l.map fun mmc => Real.exp (mmc.1 * (mmc.2.1 - mmc.2.2.data idx) ^ 2)).prod := by
  induction l generalizing t with
  | nil => simp
  | cons hd tl ih =>
    simp only [List.foldl_cons, ih, gaussStep, Tensor.mul, List.map_cons, List.prod_cons]
    ring

theorem gaussStep_foldl_shape (l : List (ℝ × ℝ × Tensor)) (t : Tensor) :
    (l.foldl gaussStep t).shape = t.shape := by
  induction l generalizing t with
  | nil => rfl
  | cons hd tl ih => simp only [List.foldl_cons, ih, gaussStep, Tensor.mul]

theorem windowStep_foldl (l : List (ℝ × ℝ × Tensor)) (t : Tensor) (idx : List Nat) :
    (l.foldl windowStep t).data idx =
      t.data idx *
        (l.map fun ppc =>
          (if ppc.1 ≤ ppc.2.2.data idx then (1 : ℝ) else 0) *
          (if ppc.2.2.data idx ≤ ppc.2.1 then (1 : ℝ) else 0)).prod := by
  induction l generalizing t with
  | nil => simp
  | cons hd tl ih =>
    simp only [List.foldl_cons, ih, windowStep, Tensor.mul, List.map_cons, List.prod_cons]
    ring

theorem prod_mask_eq_ite (l : List (ℝ × ℝ × Tensor)) (idx : List Nat) :
    (l.map fun ppc =>
        (if ppc.1 ≤ ppc.2.2.data idx then (1 : ℝ) else 0) *
        (if ppc.2.2.data idx ≤ ppc.2.1 then (1 : ℝ) else 0)).prod =
      if ∀ ppc ∈ l, ppc.1 ≤ ppc.2.2.data idx ∧ ppc.2.2.data idx ≤ ppc.2.1
      then 1 else 0 := by
  induction l with
  | nil => simp
  | cons hd tl ih =>
    simp only [List.map_cons, List.prod_cons, ih, List.forall_mem_cons]
    rw [ite_and, ite_and]
    by_cases hA : hd.1 ≤ hd.2.2.data idx <;>
      by_cases hB : hd.2.2.data idx ≤ hd.2.1 <;>
      by_cases hC : ∀ ppc ∈ tl, ppc.1 ≤ ppc.2.2.data idx ∧ ppc.2.2.data idx ≤ ppc.2.1 <;>
      simp [hA, hB, hC]

theorem meshgrid_length (axes : List Tensor) : (meshgrid axes).length = axes.length := by
  simp [meshgrid]

theorem meshgrid_getD (axes : List Tensor) (k : Nat) (hk : k < axes.length) :
    (meshgrid axes).getD k dfltTensor =
      ⟨axes.map fun a => a.shape.headD 0,
       fun idx => (axes.getD k dfltTensor).data [idx.getD k 0]⟩ := by
  unfold meshgrid
  rw [List.getD_eq_getElem?_getD, List.getElem?_map, List.getElem?_range hk]
  rfl

theorem fixCoordinates_ok_facts {dims : Nat} {cs out : List Tensor}
    (h : fixCoordinates dims cs = .ok out) :
    cs.length = dims ∧ out.length = dims ∧ out ≠ [] := by
  unfold fixCoordinates at h
  by_cases hlen : cs.length ≠ dims
  · rw [if_pos hlen] at h; simp at h
  · rw [if_neg hlen] at h
    push_neg at hlen
    cases cs with
    | nil => simp only [List.head?] at h; simp at h
    | cons c0 rest =>
      simp only [List.head?] at h
      have hne : c0 :: rest ≠ [] := by simp
      by_cases hd1 : dims ≠ 1
      · rw [if_pos hd1] at h
        by_cases hall : ∀ c ∈ c0 :: rest, c.shape.length = 1
        · rw [if_pos hall] at h
          cases h
          refine ⟨hlen, by simpa [meshgrid_length] using hlen, ?_⟩
          intro hnil
          have hml := meshgrid_length (c0 :: rest)
          rw [hnil] at hml
          simp at hml
        · rw [if_neg hall] at h
          by_cases hsame : ¬ ∀ c ∈ c0 :: rest, c.shape = c0.shape
          · rw [if_pos hsame] at h; simp at h
          · rw [if_neg hsame] at h; cases h; exact ⟨hlen, hlen, hne⟩
      · rw [if_neg hd1] at h; cases h; exact ⟨hlen, hlen, hne⟩

theorem gaussian_make_ok {sigmas : ScalarOrSeq} {means : Option ScalarOrSeq}
    {limits : Option LimitsArg} {g : Gaussian}
    (h : Gaussian.make sigmas means limits = .ok g) :
    g.sigmas = sigmasTuple sigmas ∧
    g.means = meansTuple (sigmasTuple sigmas).length means ∧
    g.limits = limitsTuple limits ∧
    g.normConst = gaussNormConst (sigmasTuple sigmas) ∧
    g.multipliers = gaussMultipliers (sigmasTuple sigmas) ∧
    g.means.length = g.sigmas.length := by
  unfold Gaussian.make at h
  simp only at h
  split at h
  · exact absurd h (by simp)
  · next hcond =>
    injection h with h
    subst h
    refine ⟨rfl, rfl, rfl, rfl, rfl, ?_⟩
    by_cases hB : ((meansTuple (sigmasTuple sigmas).length means).length !=
        (sigmasTuple sigmas).length) = true
    · exact absurd (by simp [hB]) hcond
    · simp only [bne_iff_ne, ne_eq, not_not] at hB
      simpa using hB

/-- Claim C8: the parameter normalizer maps an absent argument to none, a
scalar to a one-element tuple holding it, and a sequence to a tuple of the
sequence's length; it is total on these inputs, with no failure mode. -/
theorem fixParameter_spec (p : Option ScalarOrSeq) :
    match p with
    | none => fixParameter p = none
    | some (.scalar x) =>
        fixParameter p = some [x] ∧ ∃ l, fixParameter p = some l ∧ l.length = 1
    | some (.seq xs) => ∃ l, fixParameter p = some l ∧ l.length = xs.length := by
  match p with
  | none => rfl
  | some (.scalar x) => exact ⟨rfl, [x], rfl, rfl⟩
  | some (.seq xs) => exact ⟨xs, rfl, rfl⟩

/-- Claim C5 (counterexample): supplying positions0, positions1 and sizes at
once makes three of the four combinations available, yet construction
succeeds, refuting that success holds exactly when one combination is
supplied. -/
theorem window_make_exactly_one_false :
    ¬ (exceptOk (Window.make (some (.scalar 0)) (some (.scalar 1)) none
          (some (.scalar 5))) = true ↔
        (windowCombos (some (.scalar 0)) (some (.scalar 1)) none
          (some (.scalar 5))).count true = 1) := by
  intro hiff
  have hok : exceptOk (Window.make (some (.scalar 0)) (some (.scalar 1)) none
      (some (.scalar 5))) = true := rfl
  have h3 := hiff.mp hok
  simp [windowCombos, List.count_cons] at h3

/-- Claim C5 (amended): Window construction succeeds if and only if at least
one of the four combinations is supplied among the non-null arguments, and
when none is supplied it fails with an attribute error. -/
theorem window_make_ok_iff (positions0 positions1 centers sizes : Option ScalarOrSeq) :
    (exceptOk (Window.make positions0 positions1 centers sizes) = true ↔
      1 ≤ (windowCombos positions0 positions1 centers sizes).count true) ∧
    ((windowCombos positions0 positions1 centers sizes).count true = 0 →
      Window.make positions0 positions1 centers sizes = .error .attributeError) := by
  rcases positions0 with _ | (x0 | xs0) <;> rcases positions1 with _ | (x1 | xs1) <;>
    rcases centers with _ | (xc | xsc) <;> rcases sizes with _ | (xz | xsz) <;>
    simp [Window.make, windowCombos, exceptOk, fixParameter, List.count_cons]

/-- Claim C6: Gaussian construction raises the validation error exactly when
the normalized lengths of sigmas, means and limits (when given) are not all
equal; in particular sigmas of length 2 with means of length 1 raise, and an
absent means argument defaults to an all-zero tuple of length dims. -/
theorem gaussian_make_validation (sigmas : ScalarOrSeq) (means : Option ScalarOrSeq)
    (limits : Option LimitsArg) :
    (Gaussian.make sigmas means limits = .error .valueError ↔
      ¬ ((meansTuple (sigmasTuple sigmas).length means).length =
            (sigmasTuple sigmas).length ∧
          ∀ l ∈ limitsTuple limits, l.length = (sigmasTuple sigmas).length)) ∧
    ∀ g, Gaussian.make sigmas none limits = .ok g →
      g.means = List.replicate g.dims 0 := by
  constructor
  · unfold Gaussian.make
    simp only
    split
    · next hcond =>
      simp only [Bool.or_eq_true, bne_iff_ne, ne_eq, bne_self_eq_false,
        Bool.false_or] at hcond
      constructor
      · intro _ hcontra
        rcases hcond with h | h
        · exact h hcontra.1
        · cases hl : limitsTuple limits with
          | none => rw [hl] at h; simp at h
          | some l =>
            rw [hl] at h
            simp only [bne_iff_ne, ne_eq] at h
            exact h (hcontra.2 l (by rw [hl]; rfl))
      · intro _; rfl
    · next hcond =>
      simp only [Bool.or_eq_true, bne_iff_ne, ne_eq, bne_self_eq_false,
        Bool.false_or, not_or, not_not] at hcond
      constructor
      · intro hcontra; cases hcontra
      · intro hcontra
        exfalso
        apply hcontra
        refine ⟨hcond.1, fun l hl => ?_⟩
        have h2 := hcond.2
        cases hlt : limitsTuple limits with
        | none => rw [hlt] at hl; cases hl
        | some l2 =>
          rw [hlt] at hl h2
          simp only [bne_iff_ne, ne_eq, Bool.not_eq_true] at h2
          have heq : l2 = l := by simpa using hl
          subst heq
          simpa [bne_eq_false_iff_eq] using h2
  · intro g hg
    obtain ⟨hs, hm, _, _, _, _⟩ := gaussian_make_ok hg
    rw [hm, Gaussian.dims, hs]
    rfl

/-- Claim C6 (witness): concrete instances of the validation
characterization and the means default. -/
theorem gaussian_make_validation_witness :
    Gaussian.make (.seq [1, 2]) (some (.seq [0])) none = .error .valueError ∧
    ∃ g, Gaussian.make (.seq [1, 2]) none none = .ok g ∧
      g.means = List.replicate g.dims 0 := by
  constructor
  · exact (gaussian_make_validation (.seq [1, 2]) (some (.seq [0])) none).1.mpr
      (by simp [meansTuple, sigmasTuple, limitsTuple])
  · exact ⟨_, rfl, (gaussian_make_validation (.seq [1, 2]) none none).2 _ rfl⟩

theorem zipWith_add_sizes (p0 p1 : List ℝ) (h : p1.length = p0.length) :
    List.zipWith (fun position0 size => position0 + size) p0
      (List.zipWith (fun a b => b - a) p0 p1) = p1 := by
  induction p0 generalizing p1 with
  | nil => cases p1 with
    | nil => rfl
    | cons b tb => simp at h
  | cons a ta ih =>
    cases p1 with
    | nil => simp at h
    | cons b tb =>
      simp only [List.zipWith_cons_cons, List.cons.injEq]
      exact ⟨by ring, ih tb (by simpa using h)⟩

theorem zipWith_sub_sizes (p0 p1 : List ℝ) (h : p1.length = p0.length) :
    List.zipWith (fun position1 size => position1 - size) p1
      (List.zipWith (fun a b => b - a) p0 p1) = p0 := by
  induction p0 generalizing p1 with
  | nil => cases p1 with
    | nil => rfl
    | cons b tb => simp at h
  | cons a ta ih =>
    cases p1 with
    | nil => simp at h
    | cons b tb =>
      simp only [List.zipWith_cons_cons, List.cons.injEq]
      exact ⟨by ring, ih tb (by simpa using h)⟩

theorem zipWith_center_low (p0 p1 : List ℝ) (h : p1.length = p0.length) :
    List.zipWith (fun center size => center - size / 2)
      (List.zipWith (fun a b => (a + b) / 2) p0 p1)
      (List.zipWith (fun a b => b - a) p0 p1) = p0 := by
  induction p0 generalizing p1 with
  | nil => cases p1 with
    | nil => rfl
    | cons b tb => simp at h
  | cons a ta ih =>
    cases p1 with
    | nil => simp at h
    | cons b tb =>
      simp only [List.zipWith_cons_cons, List.cons.injEq]
      exact ⟨by ring, ih tb (by simpa using h)⟩

theorem zipWith_center_high (p0 p1 : List ℝ) (h : p1.length = p0.length) :
    List.zipWith (fun center size => center + size / 2)
      (List.zipWith (fun a b => (a + b) / 2) p0 p1)
      (List.zipWith (fun a b => b - a) p0 p1) = p1 := by
  induction p0 generalizing p1 with
  | nil => cases p1 with
    | nil => rfl
    | cons b tb => simp at h
  | cons a ta ih =>
    cases p1 with
    | nil => simp at h
    | cons b tb =>
      simp only [List.zipWith_cons_cons, List.cons.injEq]
      exact ⟨by ring, ih tb (by simpa using h)⟩

/-- Claim C7: the four Window construction paths that encode the same
per-axis interval all store the same position0 and position1 tuples, hence
the constructed filters are equal and evaluate identically on every grid. -/
theorem window_paths_agree (p0 p1 : List ℝ) (hlen : p1.length = p0.length) :
    Window.make (some (.seq p0)) (some (.seq p1)) none none = .ok ⟨p0, p1⟩ ∧
    Window.make (some (.seq p0)) none none
      (some (.seq (List.zipWith (fun a b => b - a) p0 p1))) = .ok ⟨p0, p1⟩ ∧
    Window.make none (some (.seq p1)) none
      (some (.seq (List.zipWith (fun a b => b - a) p0 p1))) = .ok ⟨p0, p1⟩ ∧
    Window.make none none
      (some (.seq (List.zipWith (fun a b => (a + b) / 2) p0 p1)))
      (some (.seq (List.zipWith (fun a b => b - a) p0 p1))) = .ok ⟨p0, p1⟩ := by
  refine ⟨rfl, ?_, ?_, ?_⟩
  · simp only [Window.make, fixParameter]
    rw [zipWith_add_sizes p0 p1 hlen]
  · simp only [Window.make, fixParameter]
    rw [zipWith_sub_sizes p0 p1 hlen]
  · simp only [Window.make, fixParameter]
    rw [zipWith_center_low p0 p1 hlen, zipWith_center_high p0 p1 hlen]

/-- Claim C7 (witness): the explicit-bounds path and the centers-plus-sizes
path for the interval from 0 to 2 yield the same stored bounds. -/
theorem window_paths_agree_witness :
    Window.make (some (.seq [0])) (some (.seq [2])) none none = .ok ⟨[0], [2]⟩ ∧
    Window.make none none (some (.seq [1])) (some (.seq [2])) = .ok ⟨[0], [2]⟩ := by
  have h := window_paths_agree [0] [2] (by simp)
  have e1 : List.zipWith (fun a b => b - a) [(0 : ℝ)] [2] = [2] := by
    simp only [List.zipWith_cons_cons, List.zipWith_nil_right]
    norm_num
  have e2 : List.zipWith (fun a b => (a + b) / 2) [(0 : ℝ)] [2] = [1] := by
    simp only [List.zipWith_cons_cons, List.zipWith_nil_right]
    norm_num
  rw [e1, e2] at h
  exact ⟨h.1, h.2.2.2⟩

/-- Claim C4: a filter call raises a shape-mismatch error exactly when the
number of coordinate arrays differs from dims, or dims exceeds 1 and the
arrays are neither all 1-dimensional nor all of one common shape; a 1-D
filter returns its single array unchanged, and already-gridded arrays of one
common shape are returned unchanged. -/
theorem fixCoordinates_shape_error_iff (dims : Nat) (coordinates : List Tensor) :
    (fixCoordinates dims coordinates = .error .valueError ↔
      coordinates.length ≠ dims ∨
        (1 < dims ∧ ¬ (∀ c ∈ coordinates, c.shape.length = 1) ∧
          ¬ ∃ s, ∀ c ∈ coordinates, c.shape = s)) ∧
    (dims = 1 → coordinates.length = 1 →
      fixCoordinates dims coordinates = .ok coordinates) ∧
    (coordinates.length = dims → ¬ (∀ c ∈ coordinates, c.shape.length = 1) →
      (∃ s, ∀ c ∈ coordinates, c.shape = s) →
      fixCoordinates dims coordinates = .ok coordinates) := by
  refine ⟨⟨?_, ?_⟩, ?_, ?_⟩
  · intro herr
    by_cases hlen : coordinates.length ≠ dims
    · exact Or.inl hlen
    · push_neg at hlen
      right
      unfold fixCoordinates at herr
      rw [if_neg (by simp [hlen])] at herr
      cases coordinates with
      | nil => simp only [List.head?] at herr; simp at herr
      | cons c0 rest =>
        simp only [List.head?] at herr
        have hlen' : rest.length + 1 = dims := by simpa using hlen
        by_cases hd1 : dims ≠ 1
        · rw [if_pos hd1] at herr
          by_cases hall : ∀ c ∈ c0 :: rest, c.shape.length = 1
          · rw [if_pos hall] at herr; simp at herr
          · rw [if_neg hall] at herr
            by_cases hsame : ¬ ∀ c ∈ c0 :: rest, c.shape = c0.shape
            · refine ⟨by omega, hall, ?_⟩
              rintro ⟨s, hs⟩
              apply hsame
              intro c hcmem
              rw [hs c hcmem, hs c0 (by simp)]
            · rw [if_neg hsame] at herr; simp at herr
        · rw [if_neg hd1] at herr; simp at herr
  · intro hcond
    rcases hcond with hlen | ⟨hd, hall, hcommon⟩
    · unfold fixCoordinates; rw [if_pos hlen]
    · by_cases hlen : coordinates.length ≠ dims
      · unfold fixCoordinates; rw [if_pos hlen]
      · push_neg at hlen
        unfold fixCoordinates
        rw [if_neg (by simp [hlen])]
        cases coordinates with
        | nil => exact absurd (by simp) hall
        | cons c0 rest =>
          simp only [List.head?]
          rw [if_pos (by omega : dims ≠ 1), if_neg hall,
            if_pos (fun hc => hcommon ⟨c0.shape, hc⟩)]
  · intro hd hl
    subst hd
    cases coordinates with
    | nil => simp at hl
    | cons c rest =>
      have hrest : rest = [] := by simpa using hl
      subst hrest
      rfl
  · intro hlen hall hcommon
    unfold fixCoordinates
    rw [if_neg (by simp [hlen])]
    cases coordinates with
    | nil => exact absurd (by simp) hall
    | cons c0 rest =>
      simp only [List.head?]
      obtain ⟨s, hs⟩ := hcommon
      have hc0 : ∀ c ∈ c0 :: rest, c.shape = c0.shape := by
        intro c hcmem
        rw [hs c hcmem, hs c0 (by simp)]
      by_cases hd1 : dims ≠ 1
      · rw [if_pos hd1, if_neg hall, if_neg (not_not_intro hc0)]
      · rw [if_neg hd1]

/-- Claim C4 (witness): a 1-D call returns its single array unchanged, and a
2-D filter called with one coordinate array raises the shape-mismatch
error. -/
theorem fixCoordinates_shape_error_iff_witness :
    fixCoordinates 1 [⟨[1], fun _ => 0⟩] = .ok [⟨[1], fun _ => 0⟩] ∧
    fixCoordinates 2 [⟨[1], fun _ => 0⟩] = .error .valueError :=
  ⟨(fixCoordinates_shape_error_iff 1 [⟨[1], fun _ => 0⟩]).2.1 rfl rfl,
   (fixCoordinates_shape_error_iff 2 [⟨[1], fun _ => 0⟩]).1.mpr (Or.inl (by simp))⟩

/-- Claim C3: for a filter with dims greater than 1 called on all-1-D
coordinate arrays, the coordinate normalizer builds the index-major mesh
grid: dims output arrays, each of shape given by the input lengths in input
order, with output k reading axis k at component k of the multi-index; in
particular output 0 is indexed by the first input array along dimension 0. -/
theorem fixCoordinates_meshgrid_ij (dims : Nat) (coordinates : List Tensor)
    (hd : 1 < dims) (hlen : coordinates.length = dims)
    (h1 : ∀ c ∈ coordinates, c.shape.length = 1) :
    ∃ out, fixCoordinates dims coordinates = .ok out ∧
      out.length = dims ∧
      (∀ k, k < dims →
        (out.getD k dfltTensor).shape = coordinates.map fun a => a.shape.headD 0) ∧
      ∀ k, k < dims → ∀ idx : List Nat,
        (out.getD k dfltTensor).data idx =
          (coordinates.getD k dfltTensor).data [idx.getD k 0] := by
  refine ⟨meshgrid coordinates, ?_, ?_, ?_, ?_⟩
  · unfold fixCoordinates
    rw [if_neg (by simp [hlen])]
    cases coordinates with
    | nil =>
      exfalso
      simp only [List.length] at hlen
      omega
    | cons c0 rest =>
      simp only [List.head?]
      rw [if_pos (by omega : dims ≠ 1), if_pos h1]
  · rw [meshgrid_length]; exact hlen
  · intro k hk
    rw [meshgrid_getD coordinates k (by omega)]
  · intro k hk idx
    rw [meshgrid_getD coordinates k (by omega)]

/-- Claim C3 (witness): a 2-D filter call on 1-D axes of lengths 2 and 3
meshes them into arrays of shape (2, 3) read off axis-majorly. -/
theorem fixCoordinates_meshgrid_ij_witness :
    ∃ out, fixCoordinates 2 [⟨[2], fun _ => 5⟩, ⟨[3], fun _ => 7⟩] = .ok out ∧
      out.length = 2 ∧
      (∀ k, k < 2 → (out.getD k dfltTensor).shape =
        ([⟨[2], fun _ => (5 : ℝ)⟩, ⟨[3], fun _ => 7⟩] : List Tensor).map
          fun a => a.shape.headD 0) ∧
      ∀ k, k < 2 → ∀ idx : List Nat,
        (out.getD k dfltTensor).data idx =
          (([⟨[2], fun _ => (5 : ℝ)⟩, ⟨[3], fun _ => 7⟩] : List Tensor).getD
            k dfltTensor).data [idx.getD k 0] :=
  fixCoordinates_meshgrid_ij 2 [⟨[2], fun _ => 5⟩, ⟨[3], fun _ => 7⟩]
    (by norm_num) rfl (by simp)

/-- Claim C9: the limits argument is stored but never consulted during
evaluation: Gaussian filters constructed with the same sigmas and means but
different limits arguments evaluate identically on the same coordinates. -/
theorem gaussian_limits_inert (sigmas : ScalarOrSeq) (means : Option ScalarOrSeq)
    (l1 l2 : Option LimitsArg) (g1 g2 : Gaussian)
    (h1 : Gaussian.make sigmas means l1 = .ok g1)
    (h2 : Gaussian.make sigmas means l2 = .ok g2)
    (coordinates : List Tensor) :
    g1.call coordinates = g2.call coordinates := by
  obtain ⟨hs1, hm1, _, hn1, hmul1, _⟩ := gaussian_make_ok h1
  obtain ⟨hs2, hm2, _, hn2, hmul2, _⟩ := gaussian_make_ok h2
  unfold Gaussian.call Gaussian.dims
  rw [hs1, hs2, hm1, hm2, hn1, hn2, hmul1, hmul2]

/-- Claim C9 (witness): with and without a limits pair, the same sigma and
mean give the same evaluation on a concrete coordinate array. -/
theorem gaussian_limits_inert_witness :
    ∃ g1 g2, Gaussian.make (.scalar 1) (some (.scalar 0)) none = .ok g1 ∧
      Gaussian.make (.scalar 1) (some (.scalar 0)) (some (.pair (0, 1))) = .ok g2 ∧
      g1.call [⟨[1], fun _ => 0⟩] = g2.call [⟨[1], fun _ => 0⟩] :=
  ⟨_, _, rfl, rfl, gaussian_limits_inert (.scalar 1) (some (.scalar 0)) none
    (some (.pair (0, 1))) _ _ rfl rfl _⟩

/-- Claim C2: a Window filter with equal-length bounds evaluates, at every
multi-index of the normalized grid, to 1 when the coordinate lies inside or
exactly on the bounds on every axis, and to 0 when some axis bound is
violated. -/
theorem window_eval_indicator (w : Window)
    (hlen : w.positions1.length = w.positions0.length)
    (coordinates coords : List Tensor)
    (hc : fixCoordinates w.dims coordinates = .ok coords) (idx : List Nat) :
    ∃ t, w.call coordinates = .ok t ∧
      t.data idx =
        if ∀ d, d < w.dims →
            w.positions0.getD d 0 ≤ (coords.getD d dfltTensor).data idx ∧
            (coords.getD d dfltTensor).data idx ≤ w.positions1.getD d 0
        then 1 else 0 := by
  obtain ⟨hclen, holen, hone⟩ := fixCoordinates_ok_facts hc
  unfold Window.call
  rw [hc]
  obtain ⟨c0, rest, hcs⟩ : ∃ c0 rest, coords = c0 :: rest := by
    cases coords with
    | nil => exact absurd rfl hone
    | cons c0 rest => exact ⟨c0, rest, rfl⟩
  subst hcs
  simp only [List.head?]
  refine ⟨_, rfl, ?_⟩
  rw [windowStep_foldl, prod_mask_eq_ite]
  show (1 : ℝ) * _ = _
  rw [one_mul]
  have hiff := zip3_forall_getD
    (fun a b c => a ≤ c.data idx ∧ c.data idx ≤ b)
    w.positions0 w.positions1 (c0 :: rest) hlen
    (by simpa [Window.dims] using holen) 0 0 dfltTensor
  rw [if_congr hiff rfl rfl]
  simp only [Window.dims]

/-- Claim C2 (witness): a concrete 1-D window from 0 to 2 evaluated at the
interior point 1 returns 1. -/
theorem window_eval_indicator_witness :
    ∃ t, Window.call ⟨[0], [2]⟩ [⟨[1], fun _ => 1⟩] = .ok t ∧ t.data [0] = 1 := by
  obtain ⟨t, ht, hval⟩ := window_eval_indicator ⟨[0], [2]⟩ rfl
    [⟨[1], fun _ => 1⟩] [⟨[1], fun _ => 1⟩] rfl [0]
  refine ⟨t, ht, ?_⟩
  have hcond : ∀ d, d < Window.dims ⟨[0], [2]⟩ →
      (Window.positions0 ⟨[0], [2]⟩).getD d 0 ≤
        (([⟨[1], fun _ => (1 : ℝ)⟩] : List Tensor).getD d dfltTensor).data [0] ∧
      (([⟨[1], fun _ => (1 : ℝ)⟩] : List Tensor).getD d dfltTensor).data [0] ≤
        (Window.positions1 ⟨[0], [2]⟩).getD d 0 := by
    intro d hd
    have hd0 : d = 0 := by simpa [Window.dims] using hd
    subst hd0
    refine ⟨by norm_num [List.getD], by norm_num [List.getD]⟩
  rw [hval, if_pos hcond]

/-- Claim C10: Window construction performs no length validation: unequal
bound lists are accepted, dims is the length of the stored positions0 tuple,
and evaluation multiplies masks only over the zip-truncated axes, whose
number is the minimum of the two bound lengths, leaving later coordinate
axes unconstrained. -/
theorem window_zip_truncation (xs ys : List ℝ)
    (coordinates coords : List Tensor)
    (hc : fixCoordinates xs.length coordinates = .ok coords) (idx : List Nat) :
    Window.make (some (.seq xs)) (some (.seq ys)) none none = .ok ⟨xs, ys⟩ ∧
    Window.dims ⟨xs, ys⟩ = xs.length ∧
    (zip3 xs ys coords).length = min xs.length ys.length ∧
    ∃ t, Window.call ⟨xs, ys⟩ coordinates = .ok t ∧
      t.data idx = ((zip3 xs ys coords).map fun ppc =>
        (if ppc.1 ≤ ppc.2.2.data idx then (1 : ℝ) else 0) *
        (if ppc.2.2.data idx ≤ ppc.2.1 then (1 : ℝ) else 0)).prod := by
  obtain ⟨hclen, holen, hone⟩ := fixCoordinates_ok_facts hc
  refine ⟨rfl, rfl, ?_, ?_⟩
  · rw [zip3_length]
    omega
  · unfold Window.call
    simp only [Window.dims]
    rw [hc]
    obtain ⟨c0, rest, hcs⟩ : ∃ c0 rest, coords = c0 :: rest := by
      cases coords with
      | nil => exact absurd rfl hone
      | cons c0 rest => exact ⟨c0, rest, rfl⟩
    subst hcs
    simp only [List.head?]
    refine ⟨_, rfl, ?_⟩
    rw [windowStep_foldl]
    show (1 : ℝ) * _ = _
    rw [one_mul]

/-- Claim C10 (witness): positions0 of length 2 with positions1 of length 1
construct successfully and the mask product ranges over one axis only. -/
theorem window_zip_truncation_witness :
    Window.make (some (.seq [0, 1])) (some (.seq [2])) none none = .ok ⟨[0, 1], [2]⟩ ∧
    Window.dims ⟨[0, 1], [2]⟩ = 2 ∧
    (zip3 [(0 : ℝ), 1] [(2 : ℝ)]
      (meshgrid [⟨[1], fun _ => 1⟩, ⟨[1], fun _ => 1⟩])).length = 1 ∧
    ∃ t, Window.call ⟨[0, 1], [2]⟩ [⟨[1], fun _ => 1⟩, ⟨[1], fun _ => 1⟩] = .ok t ∧
      t.data [0, 0] = ((zip3 [(0 : ℝ), 1] [(2 : ℝ)]
          (meshgrid [⟨[1], fun _ => 1⟩, ⟨[1], fun _ => 1⟩])).map fun ppc =>
        (if ppc.1 ≤ ppc.2.2.data [0, 0] then (1 : ℝ) else 0) *
        (if ppc.2.2.data [0, 0] ≤ ppc.2.1 then (1 : ℝ) else 0)).prod := by
  have h := window_zip_truncation [0, 1] [2]
    [⟨[1], fun _ => 1⟩, ⟨[1], fun _ => 1⟩]
    (meshgrid [⟨[1], fun _ => 1⟩, ⟨[1], fun _ => 1⟩]) rfl [0, 0]
  exact ⟨h.1, h.2.1, h.2.2.1, h.2.2.2⟩

/-- Claim C1: a Gaussian filter constructed from per-axis sigmas and means
evaluates elementwise to the product over axes of the normalization
constants 1 / (sigma * sqrt2pi) times the product over axes of
exp(-(mean - x)^2 / (2 sigma^2)); in particular a 1-D Gaussian with positive
sigma evaluated at its mean returns exactly 1 / (sigma * sqrt2pi). -/
theorem gaussian_eval_separable :
    (∀ (sigmas means : List ℝ) (g : Gaussian),
      Gaussian.make (.seq sigmas) (some (.seq means)) none = .ok g →
      ∀ (coordinates coords : List Tensor),
      fixCoordinates g.dims coordinates = .ok coords →
      ∀ idx : List Nat,
      ∃ t, g.call coordinates = .ok t ∧
        t.data idx = (sigmas.map fun s => 1 / (s * sqrt2pi)).prod *
          ((zip3 sigmas means coords).map fun smc =>
            Real.exp (-(smc.2.1 - smc.2.2.data idx) ^ 2 / (2 * smc.1 ^ 2))).prod) ∧
    ∀ sigma mean : ℝ, 0 < sigma →
      ∀ g : Gaussian, Gaussian.make (.scalar sigma) (some (.scalar mean)) none = .ok g →
      ∃ t, g.call [⟨[1], fun _ => mean⟩] = .ok t ∧
        t.data [0] = 1 / (sigma * sqrt2pi) := by
  constructor
  · intro sigmas means g hg coordinates coords hc idx
    obtain ⟨hs, hm, hl, hn, hmul, hmlen⟩ := gaussian_make_ok hg
    simp only [sigmasTuple, meansTuple] at hs hm hn hmul
    obtain ⟨hclen, holen, hone⟩ := fixCoordinates_ok_facts hc
    unfold Gaussian.call
    rw [hc]
    obtain ⟨c0, rest, hcs⟩ : ∃ c0 rest, coords = c0 :: rest := by
      cases coords with
      | nil => exact absurd rfl hone
      | cons c0 rest => exact ⟨c0, rest, rfl⟩
    subst hcs
    simp only [List.head?]
    refine ⟨_, rfl, ?_⟩
    rw [gaussStep_foldl]
    show (1 * g.normConst) * _ = _
    rw [hn, hmul, hm, one_mul]
    have hnorm : gaussNormConst sigmas =
        1 * (sigmas.map fun s => 1 / (s * sqrt2pi)).prod :=
      foldl_mul_eq_prod (fun s => 1 / (s * sqrt2pi)) sigmas 1
    rw [hnorm, one_mul]
    congr 1
    rw [gaussMultipliers, zip3_map_left, List.map_map]
    congr 1
    apply List.map_congr_left
    intro x hx
    simp only [Function.comp_apply]
    congr 1
    ring
  · intro sigma mean hsig g hg
    obtain ⟨hs, hm, hl, hn, hmul, hmlen⟩ := gaussian_make_ok hg
    simp only [sigmasTuple, meansTuple] at hs hm hn hmul
    unfold Gaussian.call
    have hdims : g.dims = 1 := by rw [Gaussian.dims, hs]; rfl
    rw [hdims]
    have hfix : fixCoordinates 1 [(⟨[1], fun _ => mean⟩ : Tensor)] =
        .ok [⟨[1], fun _ => mean⟩] := rfl
    rw [hfix]
    simp only [List.head?]
    refine ⟨_, rfl, ?_⟩
    rw [hmul, hm]
    simp only [gaussMultipliers, List.map_cons, List.map_nil]
    rw [show zip3 [-1 / (2 * sigma * sigma)] [mean] [(⟨[1], fun _ => mean⟩ : Tensor)] =
      [(-1 / (2 * sigma * sigma), mean, (⟨[1], fun _ => mean⟩ : Tensor))] from rfl]
    rw [List.foldl_cons, List.foldl_nil]
    show (1 * g.normConst) * Real.exp (-1 / (2 * sigma * sigma) * (mean - mean) ^ 2) = _
    rw [hn]
    simp [gaussNormConst, sub_self, Real.exp_zero]

/-- Claim C1 (witness): concrete instances of both parts, at sigma 1 and
mean 0 on a single-point coordinate array. -/
theorem gaussian_eval_separable_witness :
    (0 : ℝ) < 1 ∧
    (∃ g, Gaussian.make (.seq [1]) (some (.seq [0])) none = .ok g ∧
      ∃ t, g.call ([⟨[1], fun _ => 0⟩] : List Tensor) = .ok t ∧
        t.data [0] = (([(1 : ℝ)]).map fun s => 1 / (s * sqrt2pi)).prod *
          ((zip3 [(1 : ℝ)] [(0 : ℝ)] ([⟨[1], fun _ => 0⟩] : List Tensor)).map fun smc =>
            Real.exp (-(smc.2.1 - smc.2.2.data [0]) ^ 2 / (2 * smc.1 ^ 2))).prod) ∧
    ∃ g, Gaussian.make (.scalar 1) (some (.scalar 0)) none = .ok g ∧
      ∃ t, g.call ([⟨[1], fun _ => 0⟩] : List Tensor) = .ok t ∧
        t.data [0] = 1 / (1 * sqrt2pi) := by
  refine ⟨one_pos, ⟨_, rfl, ?_⟩, ⟨_, rfl, ?_⟩⟩
  · exact gaussian_eval_separable.1 [1] [0] _ rfl
      ([⟨[1], fun _ => 0⟩] : List Tensor) ([⟨[1], fun _ => 0⟩] : List Tensor) rfl [0]
  · exact gaussian_eval_separable.2 1 0 one_pos _ rfl

/-- Claim C5 (amended, witness): with no arguments supplied no combination
holds and construction fails with the attribute error. -/
theorem window_make_ok_iff_witness :
    Window.make none none none none = .error .attributeError :=
  (window_make_ok_iff none none none none).2 rfl
